import Mathlib

/-!
Shallow embedding of the Velox memory-manager subsystem
(`velox/common/memory/Memory.cpp`) and proofs about it.

The `MemoryManager` operations are translated from the C++ source.
The `MemoryArbitrator` implementation is not part of the sources at hand
(only its call sites are), so manager operations record their calls to the
arbitrator in an explicit log (`ArbCall`), and the arbitrator's capacity
protocol itself is modelled from the spec as a transition system
(`ArbState`, see below).

Capacities are byte counts, modelled as `Nat`.  Fallible operations
(`VELOX_CHECK*` / `VELOX_FAIL`, which throw) return `Except VeloxError`.
-/

namespace Velox

/-- `kMaxMemory = std::numeric_limits<int64_t>::max()`: the "unlimited"
capacity ceiling. -/
def kMaxMemory : Nat := 2 ^ 63 - 1

/-- `MemoryAllocator::kMinAlignment`: the allocator's minimum alignment
(external allocator interface; `alignof(max_align_t)` = 16). -/
def kMinAlignment : Nat := 16

/-- Errors produced by `VELOX_CHECK*` / `VELOX_FAIL` style assertions. -/
inductive VeloxError where
  | checkFailure (msg : String)
deriving DecidableEq, Repr

/-- `MemoryPool::Kind`. -/
inductive PoolKind where
  | aggregate
  | leaf
deriving DecidableEq, Repr

/-- The slice of a memory pool's state visible to the manager: its name,
kind, capacity ceiling, currently granted capacity (`capacity()` in the
C++ source), current usage, and configuration. -/
structure Pool where
  name : String
  kind : PoolKind
  maxCapacity : Nat
  grantedCapacity : Nat
  currentBytes : Nat
  hasReclaimer : Bool
  threadSafe : Bool
deriving DecidableEq, Repr

instance : Inhabited Pool :=
  ⟨{ name := "", kind := .leaf, maxCapacity := 0, grantedCapacity := 0,
     currentBytes := 0, hasReclaimer := false, threadSafe := true }⟩

/-- A call made by the manager to the external `MemoryArbitrator`.
The manager records these calls in a log, since the arbitrator's
implementation is outside the sources being modelled. -/
inductive ArbCall where
  | growCapacityInit (poolName : String) (target : Nat)
  | growCapacity (poolName : String) (snapshot : List String) (increment : Nat)
  | shrinkCapacityPool (poolName : String) (target : Nat)
  | shrinkCapacityPools (snapshot : List String) (target : Nat)
deriving DecidableEq, Repr

/-- `MemoryManagerOptions` (the fields the modelled code reads).
`allocatorCapacity` is what `options.allocator->capacity()` reports;
`numSharedLeafPools` is `FLAGS_velox_memory_num_shared_leaf_pools`
(a signed 32-bit flag, hence `Int`). -/
structure MemoryManagerOptions where
  allocatorCapacity : Nat
  capacity : Nat
  queryMemoryCapacity : Nat
  memoryPoolInitCapacity : Nat
  alignment : Nat
  trackDefaultUsage : Bool
  checkUsageLeak : Bool
  debugEnabled : Bool
  numSharedLeafPools : Int
deriving DecidableEq, Repr

/-- The `MemoryManager` state.  `pools` is the registry `pools_`
(name → root pool); in this sequential model every registry entry's weak
reference resolves, so entries hold the pool value directly.  `arbLog`
records the calls issued to the external arbitrator, in order. -/
structure MemoryManager where
  capacity : Nat
  alignment : Nat
  arbitratorCapacity : Nat
  poolInitCapacity : Nat
  checkUsageLeak : Bool
  debugEnabled : Bool
  defaultRoot : Pool
  defaultRootChildren : List Pool
  sharedLeafPools : List Pool
  pools : List (String × Pool)
  rootPoolNextId : Nat
  leafPoolNextId : Nat
  arbLog : List ArbCall
deriving DecidableEq, Repr

/-- `MemoryManager::addLeafPool(name, threadSafe)`: synthesizes a name from
an atomic counter when `name` is empty, then adds a leaf child to
`defaultRoot_`. -/
def MemoryManager.addLeafPool (m : MemoryManager) (name : String)
    (threadSafe : Bool) : Pool × MemoryManager :=
  let poolName := if name.isEmpty then s!"default_leaf_{m.leafPoolNextId}" else name
  let m := if name.isEmpty then { m with leafPoolNextId := m.leafPoolNextId + 1 } else m
  let pool : Pool :=
    { name := poolName, kind := .leaf, maxCapacity := m.defaultRoot.maxCapacity,
      grantedCapacity := 0, currentBytes := 0, hasReclaimer := false,
      threadSafe := threadSafe }
  (pool, { m with defaultRootChildren := m.defaultRootChildren ++ [pool] })

/-- One iteration of the shared-leaf-pool construction loop in the
`MemoryManager` constructor: `sharedLeafPools_.emplace_back(addLeafPool(...))`. -/
def constructSharedLeafStep (m : MemoryManager) (i : Nat) : MemoryManager :=
  let (pool, m) := m.addLeafPool s!"default_shared_leaf_pool_{i}" true
  { m with sharedLeafPools := m.sharedLeafPools ++ [pool] }

/-- `MemoryManager::MemoryManager(options)`.  Member initialization builds
the arbitrator with capacity `min(queryMemoryCapacity, capacity)`, sets
`alignment_ = max(kMinAlignment, options.alignment)`, and creates
`defaultRoot_` with unlimited max capacity; the body checks
`allocator->capacity() == capacity_` (fatal mismatch), grows the default
root to its maximum, and creates `max(1, FLAGS_..._num_shared_leaf_pools)`
shared leaf pools. -/
def MemoryManager.construct (options : MemoryManagerOptions) :
    Except VeloxError MemoryManager :=
  let alignment := max kMinAlignment options.alignment
  let defaultRoot : Pool :=
    { name := "__default_root__", kind := .aggregate, maxCapacity := kMaxMemory,
      grantedCapacity := kMaxMemory, currentBytes := 0, hasReclaimer := false,
      threadSafe := true }
  if options.allocatorCapacity ≠ options.capacity then
    .error (.checkFailure
      "MemoryAllocator capacity must be the same as MemoryManager capacity.")
  else
    let base : MemoryManager :=
      { capacity := options.capacity, alignment := alignment,
        arbitratorCapacity := min options.queryMemoryCapacity options.capacity,
        poolInitCapacity := options.memoryPoolInitCapacity,
        checkUsageLeak := options.checkUsageLeak,
        debugEnabled := options.debugEnabled,
        defaultRoot := defaultRoot, defaultRootChildren := [],
        sharedLeafPools := [], pools := [],
        rootPoolNextId := 0, leafPoolNextId := 0, arbLog := [] }
    let numSharedPools := (max 1 options.numSharedLeafPools).toNat
    .ok ((List.range numSharedPools).foldl constructSharedLeafStep base)

/-- `MemoryManager::capacity()`. -/
def MemoryManager.capacityOf (m : MemoryManager) : Nat := m.capacity

/-- `MemoryManager::alignment()`. -/
def MemoryManager.alignmentOf (m : MemoryManager) : Nat := m.alignment

/-- `MemoryManager::getAlivePools()`: resolves every registry entry; in
this sequential model no entry is dead (destruction always erases its
entry via `dropPool`), so all entries resolve. -/
def MemoryManager.getAlivePools (m : MemoryManager) : List Pool :=
  m.pools.map Prod.snd

/-- `MemoryManager::addRootPool(name, capacity, reclaimer)`: synthesizes a
name when empty, fails on a duplicate name, creates the pool (granted
capacity 0, max capacity `capacity`), registers it, checks
`pool->capacity() == 0`, then asks the arbitrator to grow it to
`min(poolInitCapacity_, capacity)`. -/
def MemoryManager.addRootPool (m : MemoryManager) (name : String)
    (capacity : Nat) (hasReclaimer : Bool) :
    Except VeloxError (Pool × MemoryManager) :=
  let poolName := if name.isEmpty then s!"default_root_{m.rootPoolNextId}" else name
  let m := if name.isEmpty then { m with rootPoolNextId := m.rootPoolNextId + 1 } else m
  if (m.pools.lookup poolName).isSome then
    .error (.checkFailure s!"Duplicate root pool name found: {poolName}")
  else
    let pool : Pool :=
      { name := poolName, kind := .aggregate, maxCapacity := capacity,
        grantedCapacity := 0, currentBytes := 0, hasReclaimer := hasReclaimer,
        threadSafe := true }
    let m := { m with pools := m.pools ++ [(poolName, pool)] }
    if pool.grantedCapacity ≠ 0 then
      .error (.checkFailure "pool capacity must be 0 at creation")
    else
      .ok (pool,
        { m with arbLog := m.arbLog ++
            [.growCapacityInit poolName (min m.poolInitCapacity capacity)] })

/-- `MemoryManager::growPool(pool, incrementBytes)`: fails if the pool's
capacity is already `kMaxMemory`, otherwise delegates to
`arbitrator_->growCapacity(pool, getAlivePools(), incrementBytes)` and
returns its verdict.  The external arbitrator's verdict is an input of
the model (`arbSuccess`). -/
def MemoryManager.growPool (m : MemoryManager) (pool : Pool)
    (incrementBytes : Nat) (arbSuccess : Bool) :
    Except VeloxError (Bool × MemoryManager) :=
  if pool.grantedCapacity = kMaxMemory then
    .error (.checkFailure "growPool: pool capacity equals kMaxMemory")
  else
    .ok (arbSuccess,
      { m with arbLog := m.arbLog ++
          [.growCapacity pool.name (m.getAlivePools.map Pool.name) incrementBytes] })

/-- `MemoryManager::shrinkPools(targetBytes)`: delegates to
`arbitrator_->shrinkCapacity(getAlivePools(), targetBytes)`.  The bytes
actually freed are the external arbitrator's answer (`arbFreed`). -/
def MemoryManager.shrinkPools (m : MemoryManager) (targetBytes : Nat)
    (arbFreed : Nat) : Nat × MemoryManager :=
  (arbFreed,
    { m with arbLog := m.arbLog ++
        [.shrinkCapacityPools (m.getAlivePools.map Pool.name) targetBytes] })

/-- `MemoryManager::dropPool(pool)`: fails if the pool is not found in the
registry; erases its entry; asserts `pool->currentBytes() == 0`
(`VELOX_DCHECK_EQ`); returns its capacity to the arbitrator via
`shrinkCapacity(pool, 0)`. -/
def MemoryManager.dropPool (m : MemoryManager) (pool : Pool) :
    Except VeloxError MemoryManager :=
  match m.pools.lookup pool.name with
  | none => .error (.checkFailure "The dropped memory pool not found")
  | some _ =>
    let m := { m with pools := m.pools.eraseP (fun e => e.1 == pool.name) }
    if pool.currentBytes ≠ 0 then
      .error (.checkFailure "dropped pool has nonzero currentBytes")
    else
      .ok { m with arbLog := m.arbLog ++ [.shrinkCapacityPool pool.name 0] }

/-- `MemoryManager::deprecatedSharedLeafPool()`: indexes the fixed shared
leaf pool array by the calling thread's identity hash modulo its size. -/
def MemoryManager.deprecatedSharedLeafPool (m : MemoryManager)
    (threadIdHash : Nat) : Pool :=
  m.sharedLeafPools.getD (threadIdHash % m.sharedLeafPools.length) default

/-- `MemoryManager::~MemoryManager()`: when leak-checking is enabled,
fails unless the registry is empty. -/
def MemoryManager.destructor (m : MemoryManager) : Except VeloxError Unit :=
  if m.checkUsageLeak then
    if m.pools.length = 0 then .ok ()
    else .error (.checkFailure
      "There are unexpected alive memory pools allocated by user on memory manager destruction")
  else .ok ()

/-- Modelled from the spec: the `MemoryArbitrator` implementation (the
growth/shrink protocol of spec section 4.3) is not among the sources at
hand, only its call sites are.  The state is the arbitrable budget
`totalCapacity` and the live pools with their granted capacities
(pool identity × granted bytes). -/
structure ArbState where
  totalCapacity : Nat
  pools : List (Nat × Nat)
deriving DecidableEq, Repr

/-- Total capacity currently committed to live pools. -/
def ArbState.committed (s : ArbState) : Nat :=
  (s.pools.map Prod.snd).sum

/-- Granted capacity of pool `p` (0 when `p` is not live). -/
def ArbState.grantedOf (s : ArbState) (p : Nat) : Nat :=
  (s.pools.lookup p).getD 0

/-- Raise pool `p`'s granted capacity by `d` (the commit step of a grant). -/
def grantUpd (l : List (Nat × Nat)) (p d : Nat) : List (Nat × Nat) :=
  l.map fun e => if e.1 = p then (e.1, e.2 + d) else e

/-- Lower pool `q`'s granted capacity by up to `r` bytes (one reclaimer
invocation; a reclaimer cannot free more than the pool holds). -/
def shrinkUpd (l : List (Nat × Nat)) (q r : Nat) : List (Nat × Nat) :=
  l.map fun e => if e.1 = q then (e.1, e.2 - r) else e

/-- Apply a sequence of reclaimer outcomes `(pool, bytesFreed)`, skipping
the excluded pool (the grow requester is never a reclamation candidate). -/
def reclaimFold (l : List (Nat × Nat)) (skip : Option Nat)
    (reclaims : List (Nat × Nat)) : List (Nat × Nat) :=
  reclaims.foldl
    (fun acc qr => if skip = some qr.1 then acc else shrinkUpd acc qr.1 qr.2) l

/-- Modelled from the spec: `MemoryArbitrator::growCapacity(pool, pools,
increment)` — commit directly when the committed total plus the increment
fits the budget; otherwise reclaim from candidate pools (excluding the
requester, with reclaimer outcomes `reclaims` as an adversarial input)
and commit only if the request then fits; otherwise fail with no grant. -/
def ArbState.growCapacity (s : ArbState) (p d : Nat)
    (reclaims : List (Nat × Nat)) : Bool × ArbState :=
  if s.committed + d ≤ s.totalCapacity then
    (true, { s with pools := grantUpd s.pools p d })
  else
    let s' : ArbState := { s with pools := reclaimFold s.pools (some p) reclaims }
    if s'.committed + d ≤ s'.totalCapacity then
      (true, { s' with pools := grantUpd s'.pools p d })
    else
      (false, s')

/-- One atomic arbitrator operation (each runs under the arbitrator's
internal lock, so a concurrent history is an interleaving of these). -/
inductive ArbOp where
  | addPool (p : Nat)
  | grow (p d : Nat) (reclaims : List (Nat × Nat))
  | shrink (reclaims : List (Nat × Nat))
  | destroy (p : Nat)
deriving DecidableEq, Repr

/-- Modelled from the spec: the effect of one arbitrator operation.
Registration adds a live pool with granted capacity 0 (duplicate pool
identities are rejected, mirroring the manager's registry); `grow` runs
the growth protocol; `shrink` applies reclaimer outcomes across the
snapshot; `destroy` removes the pool, returning its capacity. -/
def ArbState.step (s : ArbState) : ArbOp → ArbState
  | .addPool p =>
    if (s.pools.lookup p).isSome then s else { s with pools := s.pools ++ [(p, 0)] }
  | .grow p d reclaims => (s.growCapacity p d reclaims).2
  | .shrink reclaims => { s with pools := reclaimFold s.pools none reclaims }
  | .destroy p => { s with pools := s.pools.filter (fun e => e.1 ≠ p) }

/-- The arbitrator's initial state: budget `C`, no live pools. -/
def ArbState.init (C : Nat) : ArbState :=
  { totalCapacity := C, pools := [] }

/-- Run a (serialized) history of arbitrator operations from the initial
state. -/
def ArbState.run (C : Nat) (ops : List ArbOp) : ArbState :=
  ops.foldl ArbState.step (ArbState.init C)

/-- The arbitrator invariant: live pool identities are distinct and the
committed total never exceeds the budget. -/
def ArbState.Inv (s : ArbState) : Prop :=
  (s.pools.map Prod.fst).Nodup ∧ s.committed ≤ s.totalCapacity

/-- The process state backing `spillMemoryPool()`: the function-local
static pool, created on first use from the process-wide manager. -/
structure ProcessState where
  manager : MemoryManager
  spillPool : Option Pool
deriving DecidableEq, Repr

/-- `spillMemoryPool()`: on first call creates the leaf pool
`"_sys.spilling"` via the manager and caches it; later calls return the
cached instance. -/
def spillMemoryPool (s : ProcessState) : Pool × ProcessState :=
  match s.spillPool with
  | some p => (p, s)
  | none =>
    let (p, m) := s.manager.addLeafPool "_sys.spilling" true
    (p, { manager := m, spillPool := some p })

/-- `isSpillMemoryPool(pool)`: compares `pool` against `spillMemoryPool()`. -/
def isSpillMemoryPool (s : ProcessState) (pool : Pool) : Bool × ProcessState :=
  let (sp, s') := spillMemoryPool s
  (pool == sp, s')

/-- Wellformedness of the manager's registry, as established by
`addRootPool`: registered names are distinct and each entry's key is the
registered pool's name. -/
def MemoryManager.RegistryWF (m : MemoryManager) : Prop :=
  (m.pools.map Prod.fst).Nodup ∧ ∀ e ∈ m.pools, e.1 = e.2.name

/-- A concrete options record, used to evaluate the theorems on closed
inputs. -/
def sampleOptions : MemoryManagerOptions :=
  { allocatorCapacity := 1024, capacity := 1024, queryMemoryCapacity := 512,
    memoryPoolInitCapacity := 64, alignment := 8, trackDefaultUsage := true,
    checkUsageLeak := true, debugEnabled := false, numSharedLeafPools := 4 }

/-- A concrete manager state with an empty registry, used to evaluate the
theorems on closed inputs. -/
def sampleManager : MemoryManager :=
  { capacity := 1024, alignment := 16, arbitratorCapacity := 512,
    poolInitCapacity := 64, checkUsageLeak := true, debugEnabled := false,
    defaultRoot :=
      { name := "__default_root__", kind := .aggregate,
        maxCapacity := kMaxMemory, grantedCapacity := kMaxMemory,
        currentBytes := 0, hasReclaimer := false, threadSafe := true },
    defaultRootChildren := [], sharedLeafPools := [], pools := [],
    rootPoolNextId := 0, leafPoolNextId := 0, arbLog := [] }

/-- A concrete root pool, used to evaluate the theorems on closed inputs. -/
def samplePool : Pool :=
  { name := "q1", kind := .aggregate, maxCapacity := 100,
    grantedCapacity := 0, currentBytes := 0, hasReclaimer := false,
    threadSafe := true }

/-! ### Arbitrator invariant lemmas -/

theorem keys_grantUpd (p d : Nat) (l : List (Nat × Nat)) :
    (grantUpd l p d).map Prod.fst = l.map Prod.fst := by
  induction l with
  | nil => rfl
  | cons e t ih =>
    by_cases h : e.1 = p <;> simp only [grantUpd, List.map_cons] at ih ⊢ <;>
      simp [h, ih]

theorem keys_shrinkUpd (q r : Nat) (l : List (Nat × Nat)) :
    (shrinkUpd l q r).map Prod.fst = l.map Prod.fst := by
  induction l with
  | nil => rfl
  | cons e t ih =>
    by_cases h : e.1 = q <;> simp only [shrinkUpd, List.map_cons] at ih ⊢ <;>
      simp [h, ih]

theorem keys_reclaimFold (skip : Option Nat) (reclaims : List (Nat × Nat)) :
    ∀ l : List (Nat × Nat),
      (reclaimFold l skip reclaims).map Prod.fst = l.map Prod.fst := by
  induction reclaims with
  | nil => intro l; rfl
  | cons qr rs ih =>
    intro l
    simp only [reclaimFold, List.foldl_cons]
    by_cases h : skip = some qr.1
    · simpa [reclaimFold, h] using ih l
    · simpa [reclaimFold, h, keys_shrinkUpd] using ih (shrinkUpd l qr.1 qr.2)

theorem sum_shrinkUpd_le (q r : Nat) (l : List (Nat × Nat)) :
    ((shrinkUpd l q r).map Prod.snd).sum ≤ (l.map Prod.snd).sum := by
  induction l with
  | nil => simp [shrinkUpd]
  | cons e t ih =>
    simp only [shrinkUpd, List.map_cons, List.sum_cons] at ih ⊢
    by_cases h : e.1 = q
    · simp only [if_pos h]
      exact Nat.add_le_add (Nat.sub_le _ _) ih
    · simp only [if_neg h]
      exact Nat.add_le_add_left ih _

theorem sum_reclaimFold_le (skip : Option Nat) (reclaims : List (Nat × Nat)) :
    ∀ l : List (Nat × Nat),
      ((reclaimFold l skip reclaims).map Prod.snd).sum ≤ (l.map Prod.snd).sum := by
  induction reclaims with
  | nil => intro l; exact le_refl _
  | cons qr rs ih =>
    intro l
    simp only [reclaimFold, List.foldl_cons]
    by_cases h : skip = some qr.1
    · simpa [reclaimFold, h] using ih l
    · rw [if_neg h]
      exact le_trans (by simpa [reclaimFold] using ih (shrinkUpd l qr.1 qr.2))
        (sum_shrinkUpd_le qr.1 qr.2 l)

theorem sum_filter_snd_le (f : Nat × Nat → Bool) (l : List (Nat × Nat)) :
    ((l.filter f).map Prod.snd).sum ≤ (l.map Prod.snd).sum := by
  induction l with
  | nil => simp
  | cons e t ih =>
    by_cases h : f e <;> simp [List.filter_cons, h] <;> omega

theorem grantUpd_eq_of_not_mem (p d : Nat) (l : List (Nat × Nat))
    (h : p ∉ l.map Prod.fst) : grantUpd l p d = l := by
  induction l with
  | nil => rfl
  | cons e t ih =>
    simp only [List.map_cons, List.mem_cons, not_or] at h
    simp only [grantUpd, List.map_cons] at ih ⊢
    rw [if_neg (fun he => h.1 he.symm), ih h.2]

theorem sum_grantUpd_le (p d : Nat) (l : List (Nat × Nat))
    (h : (l.map Prod.fst).Nodup) :
    ((grantUpd l p d).map Prod.snd).sum ≤ (l.map Prod.snd).sum + d := by
  induction l with
  | nil => simp [grantUpd]
  | cons e t ih =>
    simp only [List.map_cons, List.nodup_cons] at h
    by_cases he : e.1 = p
    · have hnp : p ∉ t.map Prod.fst := he ▸ h.1
      simp only [grantUpd, List.map_cons, if_pos he, List.sum_cons]
      rw [show (t.map fun e => if e.1 = p then (e.1, e.2 + d) else e) =
            grantUpd t p d from rfl,
          grantUpd_eq_of_not_mem p d t hnp]
      omega
    · simp only [grantUpd, List.map_cons, if_neg he, List.sum_cons]
      have := ih h.2
      simp only [grantUpd] at this
      omega

theorem lookup_cons_ne {α β : Type} [BEq α] [LawfulBEq α] (p : α) (e : α × β)
    (t : List (α × β)) (h : ¬p = e.1) :
    List.lookup p (e :: t) = List.lookup p t := by
  have hb : (p == e.1) = false := by simpa using h
  rw [show e = (e.1, e.2) from rfl, List.lookup_cons, hb]

theorem lookup_cons_self {α β : Type} [BEq α] [LawfulBEq α] (p : α) (e : α × β)
    (t : List (α × β)) (h : p = e.1) : List.lookup p (e :: t) = some e.2 := by
  have hb : (p == e.1) = true := by simpa using h
  rw [show e = (e.1, e.2) from rfl, List.lookup_cons, hb]

theorem lookup_isSome_iff {α β : Type} [BEq α] [LawfulBEq α] (p : α)
    (l : List (α × β)) : (l.lookup p).isSome ↔ p ∈ l.map Prod.fst := by
  induction l with
  | nil => simp [List.lookup]
  | cons e t ih =>
    by_cases h : p = e.1
    · rw [lookup_cons_self p e t h]; simp [h]
    · rw [lookup_cons_ne p e t h]; simp [h, ih]

theorem lookup_eq_none_iff {α β : Type} [BEq α] [LawfulBEq α] (p : α)
    (l : List (α × β)) : l.lookup p = none ↔ p ∉ l.map Prod.fst := by
  rw [← lookup_isSome_iff]
  cases l.lookup p <;> simp

theorem lookup_append_right {α β : Type} [BEq α] [LawfulBEq α] (p : α)
    (l t : List (α × β)) (h : p ∉ l.map Prod.fst) :
    (l ++ t).lookup p = t.lookup p := by
  induction l with
  | nil => rfl
  | cons e s ih =>
    simp only [List.map_cons, List.mem_cons, not_or] at h
    rw [List.cons_append, lookup_cons_ne p e _ h.1, ih h.2]

theorem lookup_eraseP_self {α β : Type} [BEq α] [LawfulBEq α] (p : α)
    (l : List (α × β)) (hnd : (l.map Prod.fst).Nodup) :
    (l.eraseP (fun e => e.1 == p)).lookup p = none := by
  induction l with
  | nil => rfl
  | cons e t ih =>
    simp only [List.map_cons, List.nodup_cons] at hnd
    by_cases h : e.1 = p
    · rw [List.eraseP_cons_of_pos (by simpa using h), lookup_eq_none_iff]
      rw [← h]
      exact hnd.1
    · rw [List.eraseP_cons_of_neg (by simpa using h),
        lookup_cons_ne p e _ (fun hc => h hc.symm)]
      exact ih hnd.2

theorem lookup_grantUpd_self (p d : Nat) (l : List (Nat × Nat)) :
    (grantUpd l p d).lookup p = (l.lookup p).map (· + d) := by
  induction l with
  | nil => rfl
  | cons e t ih =>
    by_cases h : e.1 = p
    · simp only [grantUpd, List.map_cons, if_pos h]
      rw [lookup_cons_self p (e.1, e.2 + d) _ h.symm,
        lookup_cons_self p e t h.symm]
      rfl
    · simp only [grantUpd, List.map_cons, if_neg h]
      rw [lookup_cons_ne p e _ (fun hc => h hc.symm),
        lookup_cons_ne p e t (fun hc => h hc.symm)]
      exact ih

theorem lookup_shrinkUpd_ne (q r p : Nat) (h : q ≠ p) (l : List (Nat × Nat)) :
    (shrinkUpd l q r).lookup p = l.lookup p := by
  induction l with
  | nil => rfl
  | cons e t ih =>
    by_cases he : e.1 = q
    · have h' : ¬p = e.1 := fun hc => h (by rw [← he, ← hc])
      simp only [shrinkUpd, List.map_cons, if_pos he]
      rw [lookup_cons_ne p (e.1, e.2 - r) _ h', lookup_cons_ne p e t h']
      exact ih
    · simp only [shrinkUpd, List.map_cons, if_neg he]
      by_cases hp : p = e.1
      · rw [lookup_cons_self p e _ hp, lookup_cons_self p e t hp]
      · rw [lookup_cons_ne p e _ hp, lookup_cons_ne p e t hp]
        exact ih

theorem lookup_reclaimFold_skip (p : Nat) (reclaims : List (Nat × Nat)) :
    ∀ l : List (Nat × Nat),
      (reclaimFold l (some p) reclaims).lookup p = l.lookup p := by
  induction reclaims with
  | nil => intro l; rfl
  | cons qr rs ih =>
    intro l
    simp only [reclaimFold, List.foldl_cons]
    by_cases h : (some p : Option Nat) = some qr.1
    · simpa [reclaimFold, h] using ih l
    · rw [if_neg h]
      have hq : qr.1 ≠ p := fun hc => h (by rw [hc])
      rw [show rs.foldl _ (shrinkUpd l qr.1 qr.2) =
            reclaimFold (shrinkUpd l qr.1 qr.2) (some p) rs from rfl, ih]
      exact lookup_shrinkUpd_ne qr.1 qr.2 p hq l

theorem growCapacity_no_partial (s : ArbState) (p d : Nat)
    (r : List (Nat × Nat)) :
    (s.growCapacity p d r).2.grantedOf p = s.grantedOf p + d ∨
    (s.growCapacity p d r).2.grantedOf p = s.grantedOf p := by
  simp only [ArbState.growCapacity]
  by_cases h1 : s.committed + d ≤ s.totalCapacity
  · rw [if_pos h1]
    simp only [ArbState.grantedOf, lookup_grantUpd_self]
    cases s.pools.lookup p with
    | none => right; rfl
    | some v => left; rfl
  · rw [if_neg h1]
    have hlook : (reclaimFold s.pools (some p) r).lookup p = s.pools.lookup p :=
      lookup_reclaimFold_skip p r s.pools
    by_cases h2 :
        (ArbState.mk s.totalCapacity (reclaimFold s.pools (some p) r)).committed + d ≤
          (ArbState.mk s.totalCapacity (reclaimFold s.pools (some p) r)).totalCapacity
    · rw [if_pos h2]
      simp only [ArbState.grantedOf, lookup_grantUpd_self, hlook]
      cases s.pools.lookup p with
      | none => right; rfl
      | some v => left; rfl
    · rw [if_neg h2]
      right
      simp only [ArbState.grantedOf, hlook]

theorem step_preserves_Inv (s : ArbState) (op : ArbOp) (h : s.Inv) :
    (s.step op).Inv := by
  obtain ⟨hnd, hsum⟩ := h
  cases op with
  | addPool p =>
    simp only [ArbState.step]
    by_cases hp : (s.pools.lookup p).isSome
    · rw [if_pos hp]; exact ⟨hnd, hsum⟩
    · rw [if_neg hp]
      have hpm : p ∉ s.pools.map Prod.fst := by
        rw [← lookup_isSome_iff]; simpa using hp
      constructor
      · simpa [ArbState.Inv, List.nodup_append, hnd] using hpm
      · simpa [ArbState.committed] using hsum
  | grow p d r =>
    simp only [ArbState.step, ArbState.growCapacity]
    by_cases h1 : s.committed + d ≤ s.totalCapacity
    · rw [if_pos h1]
      refine ⟨by simpa [keys_grantUpd] using hnd, ?_⟩
      exact le_trans (sum_grantUpd_le p d s.pools hnd) h1
    · rw [if_neg h1]
      have hnd' : ((reclaimFold s.pools (some p) r).map Prod.fst).Nodup := by
        simpa [keys_reclaimFold] using hnd
      by_cases h2 :
          (ArbState.mk s.totalCapacity (reclaimFold s.pools (some p) r)).committed + d ≤
            (ArbState.mk s.totalCapacity (reclaimFold s.pools (some p) r)).totalCapacity
      · rw [if_pos h2]
        refine ⟨by simpa [keys_grantUpd] using hnd', ?_⟩
        exact le_trans (sum_grantUpd_le p d _ hnd') h2
      · rw [if_neg h2]
        refine ⟨hnd', ?_⟩
        exact le_trans (sum_reclaimFold_le (some p) r s.pools) hsum
  | shrink r =>
    refine ⟨by simpa [ArbState.step, keys_reclaimFold] using hnd, ?_⟩
    exact le_trans (sum_reclaimFold_le none r s.pools) hsum
  | destroy p =>
    constructor
    · exact List.Nodup.sublist
        (List.Sublist.map Prod.fst (List.filter_sublist s.pools)) hnd
    · exact le_trans (sum_filter_snd_le _ s.pools) hsum

theorem foldl_step_Inv (ops : List ArbOp) :
    ∀ s : ArbState, s.Inv → (ops.foldl ArbState.step s).Inv := by
  induction ops with
  | nil => intro s h; exact h
  | cons op rest ih =>
    intro s h
    exact ih (s.step op) (step_preserves_Inv s op h)

theorem step_totalCapacity (s : ArbState) (op : ArbOp) :
    (s.step op).totalCapacity = s.totalCapacity := by
  cases op with
  | addPool p => simp only [ArbState.step]; split <;> rfl
  | grow p d r =>
    simp only [ArbState.step, ArbState.growCapacity]
    split
    · rfl
    · split <;> rfl
  | shrink r => rfl
  | destroy p => rfl

theorem foldl_step_totalCapacity (ops : List ArbOp) :
    ∀ s : ArbState, (ops.foldl ArbState.step s).totalCapacity = s.totalCapacity := by
  induction ops with
  | nil => intro s; rfl
  | cons op rest ih =>
    intro s
    rw [List.foldl_cons, ih, step_totalCapacity]

theorem run_Inv (C : Nat) (ops : List ArbOp) : (ArbState.run C ops).Inv :=
  foldl_step_Inv ops (ArbState.init C)
    ⟨by simp [ArbState.init], by simp [ArbState.committed, ArbState.init]⟩

/-- C1: over every serialized history of concurrent grow, shrink, and
destroy operations, at every observable instant the sum of granted
capacities over all live pools is at most the arbitrator's
`totalCapacity`; and each individual growth request either increases the
requesting pool's granted capacity by exactly the requested amount or
leaves it unchanged (no partial grants). -/
theorem arbitrator_capacity_safety_no_partial_grants (C : Nat)
    (ops : List ArbOp) :
    (ArbState.run C ops).committed ≤ C ∧
    ∀ (p d : Nat) (r : List (Nat × Nat)),
      ((ArbState.run C ops).growCapacity p d r).2.grantedOf p
          = (ArbState.run C ops).grantedOf p + d ∨
        ((ArbState.run C ops).growCapacity p d r).2.grantedOf p
          = (ArbState.run C ops).grantedOf p := by
  constructor
  · have h := (run_Inv C ops).2
    rwa [show (ArbState.run C ops).totalCapacity = C from
      foldl_step_totalCapacity ops (ArbState.init C)] at h
  · intro p d r
    exact growCapacity_no_partial (ArbState.run C ops) p d r

/-! ### Manager construction lemmas -/

theorem sharedLeafName_ne_empty (i : Nat) :
    s!"default_shared_leaf_pool_{i}" ≠ "" := by
  have h : s!"default_shared_leaf_pool_{i}" =
      "default_shared_leaf_pool_" ++ toString i := by
    simp [toString]
  rw [h]
  intro hc
  have hl := congrArg String.length hc
  rw [String.length_append] at hl
  have h25 : ("default_shared_leaf_pool_" : String).length = 25 := by decide
  have h0 : ("" : String).length = 0 := by decide
  omega

theorem isEmpty_false_of_ne (s : String) (h : s ≠ "") : s.isEmpty = false := by
  simp [Bool.eq_false_iff, String.isEmpty_iff, h]

theorem constructStep_eq (m : MemoryManager) (i : Nat) :
    constructSharedLeafStep m i =
      { m with
        defaultRootChildren := m.defaultRootChildren ++
          [{ name := s!"default_shared_leaf_pool_{i}", kind := .leaf,
             maxCapacity := m.defaultRoot.maxCapacity, grantedCapacity := 0,
             currentBytes := 0, hasReclaimer := false, threadSafe := true }],
        sharedLeafPools := m.sharedLeafPools ++
          [{ name := s!"default_shared_leaf_pool_{i}", kind := .leaf,
             maxCapacity := m.defaultRoot.maxCapacity, grantedCapacity := 0,
             currentBytes := 0, hasReclaimer := false, threadSafe := true }] } := by
  simp [constructSharedLeafStep, MemoryManager.addLeafPool,
    isEmpty_false_of_ne _ (sharedLeafName_ne_empty i)]

theorem constructFold_preserves (l : List Nat) :
    ∀ m : MemoryManager,
      (l.foldl constructSharedLeafStep m).arbitratorCapacity
          = m.arbitratorCapacity ∧
      (l.foldl constructSharedLeafStep m).alignment = m.alignment ∧
      (l.foldl constructSharedLeafStep m).sharedLeafPools.length
          = m.sharedLeafPools.length + l.length := by
  induction l with
  | nil => intro m; exact ⟨rfl, rfl, by simp⟩
  | cons i rest ih =>
    intro m
    rw [List.foldl_cons]
    obtain ⟨h1, h2, h3⟩ := ih (constructSharedLeafStep m i)
    refine ⟨h1.trans (by rw [constructStep_eq]), h2.trans (by rw [constructStep_eq]), ?_⟩
    rw [h3, show (constructSharedLeafStep m i).sharedLeafPools.length
          = m.sharedLeafPools.length + 1 from by rw [constructStep_eq]; simp,
      List.length_cons]
    omega

/-- C3: manager construction fails exactly when the allocator's reported
capacity differs from the configured total capacity; when they are equal
it succeeds and the arbitrator is built with capacity
`min(queryMemoryCapacity, totalCapacity)`. -/
theorem construct_validates_capacity (options : MemoryManagerOptions) :
    ((∃ m, MemoryManager.construct options = .ok m) ↔
      options.allocatorCapacity = options.capacity) ∧
    ∀ m, MemoryManager.construct options = .ok m →
      m.arbitratorCapacity = min options.queryMemoryCapacity options.capacity := by
  constructor
  · constructor
    · rintro ⟨m, hm⟩
      by_contra hne
      simp only [MemoryManager.construct] at hm
      rw [if_pos hne] at hm
      exact Except.noConfusion hm
    · intro heq
      exact ⟨_, by
        simp only [MemoryManager.construct]
        rw [if_neg (by simp [heq])]⟩
  · intro m hm
    simp only [MemoryManager.construct] at hm
    by_cases hne : options.allocatorCapacity ≠ options.capacity
    · rw [if_pos hne] at hm
      exact Except.noConfusion hm
    · rw [if_neg hne] at hm
      have hfold := Except.ok.inj hm
      rw [← hfold, (constructFold_preserves _ _).1]

/-- Witness for C3: on a concrete options record with matching
capacities, construction succeeds and the arbitrator capacity is
`min 512 1024 = 512`. -/
theorem construct_validates_capacity_witness :
    (MemoryManager.construct sampleOptions).map
      (fun m => m.arbitratorCapacity) = .ok 512 := by
  obtain ⟨m, hm⟩ := (construct_validates_capacity sampleOptions).1.mpr rfl
  rw [hm]
  have := (construct_validates_capacity sampleOptions).2 m hm
  simp [Except.map, this, sampleOptions]

/-- C9: for every successfully constructed manager, the reported
alignment equals `max(kMinAlignment, options.alignment)`, hence is never
below `kMinAlignment`. -/
theorem construct_alignment_raised (options : MemoryManagerOptions)
    (m : MemoryManager) (h : MemoryManager.construct options = .ok m) :
    m.alignment = max kMinAlignment options.alignment ∧
    kMinAlignment ≤ m.alignment := by
  simp only [MemoryManager.construct] at h
  by_cases hne : options.allocatorCapacity ≠ options.capacity
  · rw [if_pos hne] at h
    exact Except.noConfusion h
  · rw [if_neg hne] at h
    have hfold := Except.ok.inj h
    constructor
    · rw [← hfold, (constructFold_preserves _ _).2.1]
    · rw [← hfold, (constructFold_preserves _ _).2.1]
      exact le_max_left _ _

/-- Witness for C9: on a concrete options record with alignment 8, the
constructed manager reports alignment `max 16 8 = 16`. -/
theorem construct_alignment_raised_witness :
    (MemoryManager.construct sampleOptions).map
      (fun m => m.alignment) = .ok 16 := by
  cases hm : MemoryManager.construct sampleOptions with
  | error e =>
    have hko : (MemoryManager.construct sampleOptions).toOption.isSome = true := by
      decide
    rw [hm] at hko
    simp [Except.toOption] at hko
  | ok m =>
    have := (construct_alignment_raised sampleOptions m hm).1
    simp [Except.map, this, sampleOptions, kMinAlignment]

/-! ### Manager registry and lifecycle theorems -/

/-- C4: every successful `addRootPool(name, capacity, reclaimer)` creates
the pool with granted capacity 0, registers it, and immediately asks the
arbitrator to grow it to `min(poolInitCapacity, capacity)`. -/
theorem addRootPool_grows_to_init (m : MemoryManager) (name : String)
    (cap : Nat) (hr : Bool) (p : Pool) (m1 : MemoryManager)
    (h : m.addRootPool name cap hr = .ok (p, m1)) :
    p.grantedCapacity = 0 ∧ (p.name, p) ∈ m1.pools ∧
    m1.arbLog = m.arbLog ++ [.growCapacityInit p.name (min m.poolInitCapacity cap)] := by
  simp only [MemoryManager.addRootPool] at h
  by_cases hne : name.isEmpty = true
  · rw [if_pos hne, if_pos hne] at h
    split at h
    · exact Except.noConfusion h
    · rw [if_neg (by simp)] at h
      injection h with h2
      injection h2 with hp hm
      subst hp
      subst hm
      exact ⟨rfl, List.mem_append_right _ (List.mem_singleton_self _), by simp⟩
  · rw [if_neg hne, if_neg hne] at h
    split at h
    · exact Except.noConfusion h
    · rw [if_neg (by simp)] at h
      injection h with h2
      injection h2 with hp hm
      subst hp
      subst hm
      exact ⟨rfl, List.mem_append_right _ (List.mem_singleton_self _), by simp⟩

/-- Witness for C4: adding the root pool `"q1"` with capacity 100 to a
concrete manager (`poolInitCapacity` 64) succeeds, yields a pool with
granted capacity 0, registers it, and logs an arbitrator growth request
of `min 64 100 = 64`. -/
theorem addRootPool_grows_to_init_witness :
    ∃ p m1, sampleManager.addRootPool "q1" 100 false = .ok (p, m1) ∧
      p.grantedCapacity = 0 ∧ (p.name, p) ∈ m1.pools ∧
      m1.arbLog = sampleManager.arbLog ++
        [.growCapacityInit p.name (min sampleManager.poolInitCapacity 100)] := by
  cases h : sampleManager.addRootPool "q1" 100 false with
  | error e =>
    have hko : (sampleManager.addRootPool "q1" 100 false).toOption.isSome = true := by
      decide
    rw [h] at hko
    simp [Except.toOption] at hko
  | ok pm =>
    obtain ⟨p, m1⟩ := pm
    exact ⟨p, m1, rfl, addRootPool_grows_to_init sampleManager "q1" 100 false p m1 h⟩

/-- C5: `growPool(pool, incrementBytes)` fails when the pool's capacity is
already the unlimited ceiling `kMaxMemory`; otherwise it delegates to the
arbitrator's `growCapacity` with the live snapshot of all registered
pools and returns the arbitrator's verdict. -/
theorem growPool_delegates (m : MemoryManager) (pool : Pool)
    (inc : Nat) (arbSuccess : Bool) :
    (pool.grantedCapacity = kMaxMemory →
      ∃ err, m.growPool pool inc arbSuccess = .error err) ∧
    (pool.grantedCapacity ≠ kMaxMemory →
      m.growPool pool inc arbSuccess = .ok (arbSuccess,
        { m with arbLog := m.arbLog ++
            [.growCapacity pool.name (m.getAlivePools.map Pool.name) inc] })) := by
  constructor
  · intro hmax
    exact ⟨_, by rw [MemoryManager.growPool, if_pos hmax]⟩
  · intro hmax
    rw [MemoryManager.growPool, if_neg hmax]

/-- Witness for C5: on a concrete manager and a pool whose capacity is
below the ceiling, `growPool` returns the arbitrator's verdict and logs
the delegation; on the default root (grown to `kMaxMemory`) it fails. -/
theorem growPool_delegates_witness :
    sampleManager.growPool samplePool 10 true = .ok (true,
      { sampleManager with arbLog := sampleManager.arbLog ++
          [.growCapacity samplePool.name
            (sampleManager.getAlivePools.map Pool.name) 10] }) ∧
    (∃ err, sampleManager.growPool sampleManager.defaultRoot 10 true = .error err) :=
  ⟨(growPool_delegates sampleManager samplePool 10 true).2 (by decide),
   (growPool_delegates sampleManager sampleManager.defaultRoot 10 true).1 (by decide)⟩

/-- C7: with leak-checking enabled, destroying the manager while any
externally created root pool remains registered fails; when the registry
is empty the destructor completes cleanly. -/
theorem destructor_leak_check (m : MemoryManager)
    (h : m.checkUsageLeak = true) :
    (m.pools ≠ [] → ∃ err, m.destructor = .error err) ∧
    (m.pools = [] → m.destructor = .ok ()) := by
  constructor
  · intro hp
    exact ⟨_, by
      rw [MemoryManager.destructor, if_pos h,
        if_neg (by simpa [List.length_eq_zero] using hp)]⟩
  · intro hp
    rw [MemoryManager.destructor, if_pos h, if_pos (by simp [hp])]

/-- Witness for C7: a concrete leak-checking manager with an empty
registry shuts down cleanly; the same manager with `"q1"` still
registered fails the destructor check. -/
theorem destructor_leak_check_witness :
    sampleManager.destructor = .ok () ∧
    ∃ err, ({ sampleManager with pools := [("q1", samplePool)] }
      : MemoryManager).destructor = .error err :=
  ⟨(destructor_leak_check sampleManager rfl).2 rfl,
   (destructor_leak_check { sampleManager with pools := [("q1", samplePool)] }
      rfl).1 (by decide)⟩

/-- C6: `dropPool(pool)` fails when the pool is not found in the
registry, surfaces a failure when the pool's `currentBytes` is nonzero,
and otherwise removes the registry entry and returns the pool's capacity
to the arbitrator via a zero-target shrink. -/
theorem dropPool_spec (m : MemoryManager) (pool : Pool)
    (hnd : (m.pools.map Prod.fst).Nodup) :
    (m.pools.lookup pool.name = none → ∃ err, m.dropPool pool = .error err) ∧
    ((m.pools.lookup pool.name).isSome = true → pool.currentBytes ≠ 0 →
      ∃ err, m.dropPool pool = .error err) ∧
    ((m.pools.lookup pool.name).isSome = true → pool.currentBytes = 0 →
      ∃ m2, m.dropPool pool = .ok m2 ∧
        m2.pools.lookup pool.name = none ∧
        m2.arbLog = m.arbLog ++ [.shrinkCapacityPool pool.name 0]) := by
  refine ⟨?_, ?_, ?_⟩
  · intro hl
    refine ⟨.checkFailure "The dropped memory pool not found", ?_⟩
    simp only [MemoryManager.dropPool, hl]
  · intro hs hcb
    obtain ⟨q, hq⟩ := Option.isSome_iff_exists.mp hs
    refine ⟨.checkFailure "dropped pool has nonzero currentBytes", ?_⟩
    simp only [MemoryManager.dropPool, hq]
    rw [if_pos hcb]
  · intro hs hcb
    obtain ⟨q, hq⟩ := Option.isSome_iff_exists.mp hs
    refine ⟨{ m with
        pools := m.pools.eraseP (fun e => e.1 == pool.name),
        arbLog := m.arbLog ++ [.shrinkCapacityPool pool.name 0] }, ?_, ?_, rfl⟩
    · simp only [MemoryManager.dropPool, hq]
      rw [if_neg (by simp [hcb])]
    · exact lookup_eraseP_self pool.name m.pools hnd

/-- Witness for C6: dropping the registered zero-usage pool `"q1"` from a
concrete manager succeeds, empties the registry, and logs a zero-target
shrink; dropping it from an empty-registry manager fails. -/
theorem dropPool_spec_witness :
    (∃ m2, ({ sampleManager with pools := [("q1", samplePool)] }
        : MemoryManager).dropPool samplePool = .ok m2 ∧
      m2.pools.lookup samplePool.name = none ∧
      m2.arbLog = ({ sampleManager with pools := [("q1", samplePool)] }
        : MemoryManager).arbLog ++ [.shrinkCapacityPool samplePool.name 0]) ∧
    (∃ err, sampleManager.dropPool samplePool = .error err) :=
  ⟨(dropPool_spec { sampleManager with pools := [("q1", samplePool)] }
      samplePool (by decide)).2.2 (by decide) rfl,
   (dropPool_spec sampleManager samplePool (by decide)).1 rfl⟩

/-- C8: the shared-leaf-pool array has the fixed size chosen at
construction; a lookup selects the entry at the caller identity's hash
modulo that size, so lookups whose hashes fall in the same residue class
return the same pool instance, and every lookup returns an element of the
array. -/
theorem sharedLeafPool_by_hash (options : MemoryManagerOptions)
    (m : MemoryManager) (h : MemoryManager.construct options = .ok m) :
    m.sharedLeafPools.length = (max 1 options.numSharedLeafPools).toNat ∧
    0 < m.sharedLeafPools.length ∧
    (∀ h1 h2 : Nat,
      h1 % m.sharedLeafPools.length = h2 % m.sharedLeafPools.length →
        m.deprecatedSharedLeafPool h1 = m.deprecatedSharedLeafPool h2) ∧
    (∀ hid : Nat,
      m.deprecatedSharedLeafPool hid =
        m.sharedLeafPools.getD (hid % m.sharedLeafPools.length) default ∧
      m.deprecatedSharedLeafPool hid ∈ m.sharedLeafPools) := by
  have hlen : m.sharedLeafPools.length
      = (max 1 options.numSharedLeafPools).toNat := by
    simp only [MemoryManager.construct] at h
    by_cases hne : options.allocatorCapacity ≠ options.capacity
    · rw [if_pos hne] at h
      exact Except.noConfusion h
    · rw [if_neg hne] at h
      have hfold := Except.ok.inj h
      rw [← hfold, (constructFold_preserves _ _).2.2]
      simp
  have hpos : 0 < m.sharedLeafPools.length := by
    rw [hlen]
    have h1 := Int.toNat_le_toNat (le_max_left 1 options.numSharedLeafPools)
    exact lt_of_lt_of_le (by decide) h1
  refine ⟨hlen, hpos, ?_, ?_⟩
  · intro h1 h2 heq
    simp only [MemoryManager.deprecatedSharedLeafPool, heq]
  · intro hid
    refine ⟨rfl, ?_⟩
    have hlt : hid % m.sharedLeafPools.length < m.sharedLeafPools.length :=
      Nat.mod_lt _ hpos
    simp only [MemoryManager.deprecatedSharedLeafPool]
    rw [List.getD_eq_getElem _ _ hlt]
    exact List.getElem_mem hlt

/-- Witness for C8: a concrete manager built with 4 configured shared
leaf pools has an array of size 4, and the lookups for identity hashes 5
and 9 (both ≡ 1 mod 4) return the same pool. -/
theorem sharedLeafPool_by_hash_witness :
    (MemoryManager.construct sampleOptions).map
      (fun m => m.sharedLeafPools.length) = .ok 4 ∧
    (MemoryManager.construct sampleOptions).map
        (fun m => m.deprecatedSharedLeafPool 5) =
      (MemoryManager.construct sampleOptions).map
        (fun m => m.deprecatedSharedLeafPool 9) := by
  cases hm : MemoryManager.construct sampleOptions with
  | error e =>
    have hko : (MemoryManager.construct sampleOptions).toOption.isSome = true := by
      decide
    rw [hm] at hko
    simp [Except.toOption] at hko
  | ok m =>
    obtain ⟨hlen, hpos, hdet, hsel⟩ := sharedLeafPool_by_hash sampleOptions m hm
    constructor
    · rw [show (4 : Nat) = (max 1 sampleOptions.numSharedLeafPools).toNat from by decide]
      simp [Except.map, hlen]
    · simp [Except.map, hdet 5 9 (by rw [hlen]; decide)]

/-- C10: `spillMemoryPool()` returns the same leaf pool instance on every
call within a process — the pool named `"_sys.spilling"`, created on
first use as a child of the default root — and `isSpillMemoryPool(pool)`
holds exactly when `pool` is that instance. -/
theorem spillMemoryPool_stable (s : ProcessState) :
    (spillMemoryPool (spillMemoryPool s).2).1 = (spillMemoryPool s).1 ∧
    (spillMemoryPool (spillMemoryPool s).2).2 = (spillMemoryPool s).2 ∧
    (s.spillPool = none →
      (spillMemoryPool s).1.name = "_sys.spilling" ∧
      (spillMemoryPool s).1.kind = .leaf ∧
      (spillMemoryPool s).1 ∈ (spillMemoryPool s).2.manager.defaultRootChildren) ∧
    ∀ q : Pool, (isSpillMemoryPool (spillMemoryPool s).2 q).1 = true ↔
      q = (spillMemoryPool s).1 := by
  cases hs : s.spillPool with
  | some p =>
    refine ⟨?_, ?_, ?_, ?_⟩
    · simp [spillMemoryPool, hs]
    · simp [spillMemoryPool, hs]
    · intro hc
      exact Option.noConfusion hc
    · intro q
      simp [spillMemoryPool, isSpillMemoryPool, hs, beq_iff_eq]
  | none =>
    have hne : ("_sys.spilling" : String).isEmpty = false := rfl
    refine ⟨?_, ?_, ?_, ?_⟩
    · simp [spillMemoryPool, MemoryManager.addLeafPool, hs, hne]
    · simp [spillMemoryPool, MemoryManager.addLeafPool, hs, hne]
    · intro _
      refine ⟨?_, ?_, ?_⟩
      · simp [spillMemoryPool, MemoryManager.addLeafPool, hs, hne]
      · simp [spillMemoryPool, MemoryManager.addLeafPool, hs, hne]
      · simp [spillMemoryPool, MemoryManager.addLeafPool, hs, hne]
    · intro q
      simp [spillMemoryPool, isSpillMemoryPool, MemoryManager.addLeafPool,
        hs, hne, beq_iff_eq]

/-- Witness for C10: starting from a concrete process state with no spill
pool yet, the first call creates `"_sys.spilling"` and the second call
returns the same instance. -/
theorem spillMemoryPool_stable_witness :
    (spillMemoryPool { manager := sampleManager, spillPool := none }).1.name
        = "_sys.spilling" ∧
    (spillMemoryPool
        (spillMemoryPool { manager := sampleManager, spillPool := none }).2).1
      = (spillMemoryPool { manager := sampleManager, spillPool := none }).1 :=
  ⟨((spillMemoryPool_stable { manager := sampleManager, spillPool := none }).2.2.1
      rfl).1,
   (spillMemoryPool_stable { manager := sampleManager, spillPool := none }).1⟩

theorem addRootPool_ok_of_not_found (m : MemoryManager) (n : String)
    (cap : Nat) (r : Bool) (hie : n.isEmpty = false)
    (hnone : m.pools.lookup n = none) :
    m.addRootPool n cap r = .ok
      ({ name := n, kind := .aggregate, maxCapacity := cap,
         grantedCapacity := 0, currentBytes := 0, hasReclaimer := r,
         threadSafe := true },
       { m with
         pools := m.pools ++ [(n,
           { name := n, kind := .aggregate, maxCapacity := cap,
             grantedCapacity := 0, currentBytes := 0, hasReclaimer := r,
             threadSafe := true })],
         arbLog := m.arbLog ++
           [.growCapacityInit n (min m.poolInitCapacity cap)] }) := by
  have hie2 : ¬(n.isEmpty = true) := by simp [hie]
  have hlk : ¬((m.pools.lookup n).isSome = true) := by rw [hnone]; simp
  simp only [MemoryManager.addRootPool]
  rw [if_neg hie2, if_neg hie2, if_neg hlk, if_neg (by simp)]

theorem eraseP_append_self (n : String) (l : List (String × Pool)) (p : Pool)
    (hnmem : n ∉ l.map Prod.fst) :
    (l ++ [(n, p)]).eraseP (fun e => e.1 == n) = l := by
  have hforall : ∀ b ∈ l, ¬((fun e : String × Pool => e.1 == n) b = true) := by
    intro b hb
    simp only [beq_iff_eq]
    intro hbn
    exact hnmem (hbn ▸ List.mem_map_of_mem Prod.fst hb)
  rw [List.eraseP_append_right _ hforall,
    List.eraseP_cons_of_pos (by simp), List.append_nil]

/-- C2: `addRootPool` fails with a duplicate-name error exactly when the
given name collides with a live registry entry; after a successful
`addRootPool("q1", cap, nil)` the alive-pool snapshot contains a pool
named `"q1"`; after that pool is destroyed the snapshot no longer
contains it, and a second `addRootPool` with the same name succeeds (the
name is reusable post-destruction). -/
theorem addRootPool_registry_consistency (m : MemoryManager) (n : String)
    (cap cap2 : Nat) (r r2 : Bool) (hwf : m.RegistryWF) (hn : n ≠ "") :
    ((m.pools.lookup n).isSome = true →
      ∃ err, m.addRootPool n cap r = .error err) ∧
    (m.pools.lookup n = none →
      ∃ p m1, m.addRootPool n cap r = .ok (p, m1) ∧ p.name = n ∧
        n ∈ m1.getAlivePools.map Pool.name ∧
        ∃ m2, m1.dropPool p = .ok m2 ∧
          n ∉ m2.getAlivePools.map Pool.name ∧
          ∃ p2 m3, m2.addRootPool n cap2 r2 = .ok (p2, m3)) := by
  have hie : n.isEmpty = false := isEmpty_false_of_ne n hn
  constructor
  · intro hs
    refine ⟨.checkFailure s!"Duplicate root pool name found: {n}", ?_⟩
    have hie2 : ¬(n.isEmpty = true) := by simp [hie]
    simp only [MemoryManager.addRootPool]
    rw [if_neg hie2, if_neg hie2, if_pos hs]
  · intro hnone
    have hnmem : n ∉ m.pools.map Prod.fst := (lookup_eq_none_iff n m.pools).mp hnone
    obtain ⟨p, m1, hadd, hpn, hpcb, hm1p, hm1log⟩ :
        ∃ p m1, m.addRootPool n cap r = .ok (p, m1) ∧ p.name = n ∧
          p.currentBytes = 0 ∧ m1.pools = m.pools ++ [(n, p)] ∧
          m1.arbLog = m.arbLog ++
            [.growCapacityInit n (min m.poolInitCapacity cap)] :=
      ⟨_, _, addRootPool_ok_of_not_found m n cap r hie hnone,
        rfl, rfl, rfl, rfl⟩
    have hvaln : n ∉ (m.pools.map Prod.snd).map Pool.name := by
      intro hmem
      obtain ⟨q, hq, hqn⟩ := List.mem_map.mp hmem
      obtain ⟨e, he, hesnd⟩ := List.mem_map.mp hq
      apply hnmem
      have he1 : e.1 = n := by
        rw [hwf.2 e he, hesnd]
        exact hqn
      exact he1 ▸ List.mem_map_of_mem Prod.fst he
    have hlook1 : m1.pools.lookup p.name = some p := by
      rw [hm1p, hpn, lookup_append_right n m.pools _ hnmem]
      exact lookup_cons_self n (n, p) [] rfl
    have hpe : m1.pools.eraseP (fun e => e.1 == p.name) = m.pools := by
      rw [hm1p, hpn]
      exact eraseP_append_self n m.pools p hnmem
    have hdrop : m1.dropPool p = .ok { m1 with
        pools := m.pools,
        arbLog := m1.arbLog ++ [.shrinkCapacityPool p.name 0] } := by
      simp only [MemoryManager.dropPool, hlook1]
      rw [if_neg (by simp [hpcb]), hpe]
    refine ⟨p, m1, hadd, hpn, ?_, ?_⟩
    · simp [MemoryManager.getAlivePools, hm1p, hpn]
    · refine ⟨_, hdrop, ?_, ?_⟩
      · simpa [MemoryManager.getAlivePools] using hvaln
      · exact ⟨_, _, addRootPool_ok_of_not_found _ n cap2 r2 hie hnone⟩

/-- Witness for C2: on a concrete manager with an empty registry, the
name `"q1"` is free, so `addRootPool("q1", 100, nil)` succeeds, the
snapshot contains `"q1"`, dropping the pool removes it, and a second
`addRootPool("q1", 64, with-reclaimer)` succeeds. -/
theorem addRootPool_registry_consistency_witness :
    sampleManager.pools.lookup "q1" = none ∧
    (∃ p m1, sampleManager.addRootPool "q1" 100 false = .ok (p, m1) ∧
      p.name = "q1" ∧ "q1" ∈ m1.getAlivePools.map Pool.name ∧
      ∃ m2, m1.dropPool p = .ok m2 ∧
        "q1" ∉ m2.getAlivePools.map Pool.name ∧
        ∃ p2 m3, m2.addRootPool "q1" 64 true = .ok (p2, m3)) :=
  ⟨rfl, (addRootPool_registry_consistency sampleManager "q1" 100 64 false true
      (by constructor <;> simp [sampleManager]) (by decide)).2 rfl⟩

end Velox
